import Mathlib

/-!
ChatMesh: message framing codec and room broadcast engine.

A shallow embedding of `src/message.hpp` and `src/chatRoom.cpp`.

* A C `char` is modelled by its unsigned value, a natural number in `0..255`.
* `size_t` is 64 bits wide and `int` is 32 bits wide; conversions between the
  two are written out with explicit `% 2^w`.
* The fixed buffer `char data[header + maxBytes]` is a list of 516 bytes.  A
  constructor that leaves part of the buffer unwritten takes the previous
  (indeterminate) content of the buffer as its first argument.
* C++ exceptions and out-of-bounds reads are results in `Except CppError`.
* A `ParticipantPointer` is modelled by the address it holds; `std::set`
  iterates over its elements in ascending order, so the participant set is a
  strictly ascending list of addresses.
-/

namespace ChatMesh

/-- One C `char`, by its unsigned value. -/
abbrev Byte := Nat

/-- A byte string: the content of a `std::string`, or a region of memory. -/
abbrev Bytes := List Byte

/-- The modulus of `size_t`. -/
def sizeMod : Nat := 2 ^ 64

/-- Conversion of an unsigned 64-bit value to `int` (two's complement, 32 bits). -/
def toInt32 (n : Nat) : Int :=
  let r : Nat := n % 2 ^ 32
  if r < 2 ^ 31 then (r : Int) else (r : Int) - 2 ^ 32

/-- Conversion of an `int` to `size_t`. -/
def toSizeT (i : Int) : Nat := (i % (sizeMod : Int)).toNat

/-- Failures of the C++ code: exceptions of `std::string`, and reads past the
end of the frame buffer. -/
inductive CppError where
  | length_error
  | out_of_range
  | out_of_bounds
  deriving DecidableEq, Repr

deriving instance DecidableEq for Except

/-! ## libc routines used by the codec -/

/-- The function `isspace` in the C locale: space, and `\t \n \v \f \r`. -/
def isspace (c : Byte) : Bool := c = 32 || (9 ≤ c && c ≤ 13)

/-- The function `isdigit`: the characters `0` to `9`. -/
def isdigit (c : Byte) : Bool := 48 ≤ c && c ≤ 57

/-- The digit loop of `atoi`: accumulate decimal digits until the first
character that is not a digit (the terminating NUL included). -/
def atoiDigits : Nat → Bytes → Nat
  | acc, [] => acc
  | acc, c :: cs => if isdigit c then atoiDigits (acc * 10 + (c - 48)) cs else acc

/-- The function `atoi`: skip white space, read an optional sign, then read
decimal digits; no digits give 0.  (The argument here is never longer than five
characters, so the `int` accumulator cannot overflow.) -/
def atoi (s : Bytes) : Int :=
  match s.dropWhile isspace with
  | [] => 0
  | c :: cs =>
    if c = 45 then - (atoiDigits 0 cs : Int)
    else if c = 43 then (atoiDigits 0 cs : Int)
    else (atoiDigits 0 (c :: cs) : Int)

/-- The call `strncpy(dst, src, n)`: the `n` bytes written to `dst`; copying
stops after the first NUL of `src` and the rest is filled with NUL. -/
def strncpy (src : Bytes) (n : Nat) : Bytes :=
  let s := (src.take n).takeWhile (fun c => c != 0)
  s ++ List.replicate (n - s.length) 0

/-- The call `memcpy(dst + off, src, n)`: the content of `dst` afterwards. -/
def memcpy (dst : Bytes) (off : Nat) (src : Bytes) (n : Nat) : Bytes :=
  dst.take off ++ src.take n ++ dst.drop (off + n)

/-- Decimal digits of a natural number, most significant first, prepended to
`acc`; `fuel` bounds the number of digits. -/
def decDigitsAux : Nat → Nat → Bytes → Bytes
  | 0, _, acc => acc
  | fuel + 1, n, acc =>
    if n < 10 then (48 + n) :: acc
    else decDigitsAux fuel (n / 10) ((48 + n % 10) :: acc)

/-- Decimal digits of a natural number, as `printf("%d")` writes them. -/
def decDigits (n : Nat) : Bytes := decDigitsAux (n + 1) n []

/-- The characters `sprintf(buf, "%4d", v)` writes, without the final NUL:
the decimal digits of `v` (after `-` when negative), padded on the left with
spaces to a width of 4. -/
def sprintf_4d (v : Int) : Bytes :=
  let s := if v < 0 then 45 :: decDigits v.natAbs else decDigits v.toNat
  List.replicate (4 - s.length) 32 ++ s

/-! ## `class Message` (src/message.hpp) -/

/-- The members of `class Message`: the frame buffer `data` (header and body)
and `bodyLength_`. -/
structure Message where
  data : Bytes
  bodyLength_ : Nat
  deriving DecidableEq, Repr

namespace Message

/-- The constant `enum {maxBytes = 512}`. -/
def maxBytes : Nat := 512

/-- The constant `enum {header = 4}`. -/
def header : Nat := 4

/-- The size of the member `char data[header + maxBytes]`. -/
def dataSize : Nat := header + maxBytes

/-- The default constructor `Message() : bodyLength_(0) {}`; `data` keeps the
indeterminate content `uninit`. -/
def default (uninit : Bytes) : Message := { data := uninit, bodyLength_ := 0 }

/-- The method `getNewBodyLength`: cap a length at `maxBytes`. -/
def getNewBodyLength (newLength : Nat) : Nat :=
  if newLength > maxBytes then maxBytes else newLength

/-- The method `encodeHeader`: print `bodyLength_` with `"%4d"` into a local
5-byte array and copy its first 4 bytes to the start of `data`. -/
def encodeHeader (m : Message) : Message :=
  let new_header := sprintf_4d (toInt32 m.bodyLength_) ++ [0]
  { m with data := memcpy m.data 0 new_header header }

/-- The constructor `Message(std::string message)`: set the body length,
encode the header, copy the body behind the header.  `uninit` is the content
of `data` before construction. -/
def new (uninit : Bytes) (message : Bytes) : Message :=
  let m0 : Message := { data := uninit, bodyLength_ := getNewBodyLength message.length }
  let m1 := encodeHeader m0
  { m1 with data := memcpy m1.data header (message ++ [0]) m1.bodyLength_ }

/-- The method `getData`: `int length = header + bodyLength_` and then
`std::string(data, length)`.  A negative `length` converts to a size above
`max_size()` and `std::string` throws `length_error`; a length above 516 reads
past the end of `data`. -/
def getData (m : Message) : Except CppError Bytes :=
  let length : Int := toInt32 ((header + m.bodyLength_) % sizeMod)
  if length < 0 then .error .length_error
  else if length.toNat > dataSize then .error .out_of_bounds
  else .ok (m.data.take length.toNat)

/-- The method `getBody`: `getData().substr(header, bodyLength_)`; `substr`
throws `out_of_range` when the position is past the end of the string. -/
def getBody (m : Message) : Except CppError Bytes :=
  match getData m with
  | .error e => .error e
  | .ok dataStr =>
    if header > dataStr.length then .error .out_of_range
    else .ok ((dataStr.drop header).take m.bodyLength_)

/-- The method `decodeHeader`: copy the 4 header bytes into a NUL-terminated
local array, parse it with `atoi`, reject a value above `maxBytes` (body
length 0, result `false`), otherwise store the value in `bodyLength_` (an
`int` converted to `size_t`) and return `true`. -/
def decodeHeader (m : Message) : Message × Bool :=
  let new_header := strncpy m.data header ++ [0]
  let headerValue : Int := atoi new_header
  if headerValue > maxBytes then ({ m with bodyLength_ := 0 }, false)
  else ({ m with bodyLength_ := toSizeT headerValue }, true)

/-- The method `getBodyLength`. -/
def getBodyLength (m : Message) : Nat := m.bodyLength_

/-- The value `decodeHeader` parses from the 4 header bytes of a message. -/
def headerValue (m : Message) : Int := atoi (strncpy m.data header ++ [0])

end Message

/-- The ASCII bytes of a string literal. -/
def ascii (s : String) : Bytes := s.toList.map Char.toNat

/-- The 4 bytes hold a leading decimal number for `atoi`: after white space and
an optional sign, the next character is a digit. -/
def hasLeadingNumber (s : Bytes) : Bool :=
  match s.dropWhile isspace with
  | [] => false
  | c :: cs =>
    if c = 45 || c = 43 then
      match cs with
      | [] => false
      | d :: _ => isdigit d
    else isdigit c

/-! ## `class Room` (src/chatRoom.cpp) -/

/-- A `std::shared_ptr<Participant>`, by the address it holds. -/
abbrev ParticipantPointer := Nat

/-- The call `std::set::insert`: the element goes to its place in ascending
order; a set that already holds it is unchanged. -/
def setInsert (x : ParticipantPointer) : List ParticipantPointer → List ParticipantPointer
  | [] => [x]
  | y :: ys =>
    if x < y then x :: y :: ys
    else if x = y then y :: ys
    else y :: setInsert x ys

/-- The call `std::set::erase`: remove the element if the set holds it. -/
def setErase (x : ParticipantPointer) : List ParticipantPointer → List ParticipantPointer
  | [] => []
  | y :: ys => if x = y then ys else y :: setErase x ys

/-- A list stands for a `std::set`: strictly ascending. -/
def IsSet (l : List ParticipantPointer) : Prop := l.Pairwise (fun a b => a < b)

instance (l : List ParticipantPointer) : Decidable (IsSet l) := by
  unfold IsSet; infer_instance

/-- The members of `class Room`: the queue of messages to broadcast and the
set of participants, in iteration order. -/
structure Room where
  messageQueue : List Message
  participants : List ParticipantPointer
  deriving DecidableEq, Repr

namespace Room

/-- The constant `enum {maxParticipants = 100}`. -/
def maxParticipants : Nat := 100

/-- A freshly constructed room. -/
def empty : Room := { messageQueue := [], participants := [] }

/-- The method `Room::join`. -/
def join (r : Room) (participant : ParticipantPointer) : Room :=
  { r with participants := setInsert participant r.participants }

/-- The method `Room::leave`. -/
def leave (r : Room) (participant : ParticipantPointer) : Room :=
  { r with participants := setErase participant r.participants }

/-- The `for` loop of `Room::deliver`: call `write(msg)` on every participant
other than the sender, in set order.  `write` acts on a state `σ` and may
throw; an exception leaves the loop. -/
def fanOut {σ : Type} (write : ParticipantPointer → Message → σ → σ × Option CppError)
    (participant : ParticipantPointer) (msg : Message) :
    List ParticipantPointer → σ → σ × Option CppError
  | [], s => (s, none)
  | _participant :: rest, s =>
    if participant ≠ _participant then
      match write _participant msg s with
      | (s1, none) => fanOut write participant msg rest s1
      | (s1, some e) => (s1, some e)
    else fanOut write participant msg rest s

/-- The `while` loop of `Room::deliver`: pop the front message and fan it out,
until the queue is empty.  The result holds the queue that is left. -/
def drain {σ : Type} (write : ParticipantPointer → Message → σ → σ × Option CppError)
    (participant : ParticipantPointer) (participants : List ParticipantPointer) :
    List Message → σ → List Message × σ × Option CppError
  | [], s => ([], s, none)
  | msg :: queue, s =>
    match fanOut write participant msg participants s with
    | (s1, none) => drain write participant participants queue s1
    | (s1, some e) => (queue, s1, some e)

/-- The method `Room::deliver`: push the message to the back of the queue,
then drain the queue. -/
def deliver {σ : Type} (write : ParticipantPointer → Message → σ → σ × Option CppError)
    (r : Room) (participant : ParticipantPointer) (message : Message) (s : σ) :
    Room × σ × Option CppError :=
  match drain write participant r.participants (r.messageQueue ++ [message]) s with
  | (queue, s1, e) => ({ r with messageQueue := queue }, s1, e)

/-- A `write` that only records the call: who was written to, and what. -/
def recordWrite (p : ParticipantPointer) (msg : Message)
    (log : List (ParticipantPointer × Message)) :
    List (ParticipantPointer × Message) × Option CppError :=
  (log ++ [(p, msg)], none)

/-- The `write` calls `Room::deliver` makes, in order. -/
def writeCalls (r : Room) (participant : ParticipantPointer) (message : Message) :
    List (ParticipantPointer × Message) :=
  (deliver recordWrite r participant message []).2.1

end Room

/-! ## `class Session` (src/chatRoom.cpp) -/

/-- The members of `class Session` the broadcast path touches: the outbound
queue, and the writes issued on `clientSocket` so far (each the bytes handed
to `boost::asio::async_write`). -/
structure Session where
  messageQueue : List Message
  socketWrites : List Bytes
  deriving DecidableEq, Repr

namespace Session

/-- A session right after construction. -/
def fresh : Session := { messageQueue := [], socketWrites := [] }

/-- The method `Session::async_write`: issue one write of
`boost::asio::buffer(messageBody, messageLength)`, that is of the first
`messageLength` bytes of `messageBody`. -/
def async_write (socketWrites : List Bytes) (messageBody : Bytes) (messageLength : Nat) :
    List Bytes :=
  socketWrites ++ [messageBody.take messageLength]

/-- The `while` loop of `Session::write`: pop the front message, decode its
header, and write its body to the socket when the header is valid.  The
result holds the queue that is left. -/
def writeLoop : List Message → List Bytes → List Message × List Bytes × Option CppError
  | [], out => ([], out, none)
  | front :: queue, out =>
    match front.decodeHeader with
    | (message, true) =>
      match message.getBody with
      | .ok body => writeLoop queue (async_write out body message.getBodyLength)
      | .error e => (queue, out, some e)
    | (_, false) => writeLoop queue out

/-- The method `Session::write`: push the message to the back of the outbound
queue, then drain the queue. -/
def write (s : Session) (message : Message) : Session × Option CppError :=
  match writeLoop (s.messageQueue ++ [message]) s.socketWrites with
  | (queue, out, e) => ({ messageQueue := queue, socketWrites := out }, e)

end Session

/-- The server state: the single shared room and the session behind every
participant pointer. -/
structure World where
  room : Room
  sessions : ParticipantPointer → Session

namespace World

/-- A server with an empty room and no traffic yet. -/
def init : World := { room := Room.empty, sessions := fun _ => Session.fresh }

/-- The virtual call `_participant->write(msg)`, on the sessions of the server. -/
def sessionWrite (p : ParticipantPointer) (msg : Message)
    (sessions : ParticipantPointer → Session) :
    (ParticipantPointer → Session) × Option CppError :=
  match (sessions p).write msg with
  | (s1, e) => (Function.update sessions p s1, e)

/-- The method `Session::deliver` of session `self`: hand the message to the
room with `self` as the sender. -/
def deliver (w : World) (self : ParticipantPointer) (incomingMessage : Message) :
    World × Option CppError :=
  match w.room.deliver sessionWrite self incomingMessage w.sessions with
  | (r, sessions, e) => ({ room := r, sessions := sessions }, e)

/-- The method `Session::start` of session `self`: join the room (and arm the
first read). -/
def start (w : World) (self : ParticipantPointer) : World :=
  { w with room := w.room.join self }

/-- The completion handler of `Session::async_read` for session `self`.
Without an error, `data` is what was read up to and including the delimiter
`"\n"`: build a `Message` from it (in a buffer of previous content `uninit`)
and deliver it.  With an error, leave the room. -/
def async_read_handler (w : World) (self : ParticipantPointer) (ec : Bool)
    (uninit : Bytes) (data : Bytes) : World × Option CppError :=
  if !ec then deliver w self (Message.new uninit data)
  else ({ w with room := w.room.leave self }, none)

end World

/-- The states a room can be in between two calls: the queue is empty and the
participants form a set. -/
def Room.Valid (r : Room) : Prop := r.messageQueue = [] ∧ IsSet r.participants

instance (r : Room) : Decidable r.Valid := by
  unfold Room.Valid; infer_instance

/-- The receiving side of the wire format, as the specification words it
(`decode(frame) -> (body, ok)`): the frame lies at the start of a message
buffer (previous content `uninit`), `decodeHeader` parses its first 4 bytes
and `getBody` takes the body; a rejected header gives the empty body. -/
def decode (uninit : Bytes) (frame : Bytes) : Except CppError (Bytes × Bool) :=
  let received : Message := { data := memcpy uninit 0 frame frame.length, bodyLength_ := 0 }
  match received.decodeHeader with
  | (message, ok) =>
    match message.getBody with
    | .ok body => .ok (body, ok)
    | .error e => .error e

/-- The scenario of two sessions: `S1` and `S2` start (join the room), then a
read of `S1` completes without error with the bytes `line`. -/
def twoSessionScenario (S1 S2 : ParticipantPointer) (uninit line : Bytes) :
    World × Option CppError :=
  ((World.init.start S1).start S2).async_read_handler S1 false uninit line

/-- The sessions as they are expected after the fan-out of a message built
from the bytes `b`: every participant in `ps` other than the sender `A` has an
empty queue and one more socket write, the first 512 bytes of `b`. -/
def World.afterFanOut (sessions : ParticipantPointer → Session)
    (ps : List ParticipantPointer) (A : ParticipantPointer) (b : Bytes) :
    ParticipantPointer → Session :=
  fun p =>
    if p ∈ ps ∧ p ≠ A then
      { messageQueue := [], socketWrites := (sessions p).socketWrites ++ [b.take 512] }
    else sessions p

/-- One call on the room: `join`, `leave`, or `deliver` with its sender and
message. -/
inductive RoomOp where
  | join (p : ParticipantPointer)
  | leave (p : ParticipantPointer)
  | deliver (p : ParticipantPointer) (m : Message)
  deriving DecidableEq, Repr

/-- One call on the room, with the log of the `write` calls made so far. -/
def Room.step (st : Room × List (ParticipantPointer × Message)) :
    RoomOp → Room × List (ParticipantPointer × Message)
  | .join p => (st.1.join p, st.2)
  | .leave p => (st.1.leave p, st.2)
  | .deliver p m =>
    match Room.deliver Room.recordWrite st.1 p m st.2 with
    | (r, log, _) => (r, log)

/-- A sequence of calls on the room, in order. -/
def Room.run (st : Room × List (ParticipantPointer × Message)) (ops : List RoomOp) :
    Room × List (ParticipantPointer × Message) :=
  ops.foldl Room.step st

/-- The messages a participant was written, in the order of the calls. -/
def callsTo (p : ParticipantPointer) (log : List (ParticipantPointer × Message)) :
    List Message :=
  (log.filter (fun c => decide (c.1 = p))).map (fun c => c.2)

/-- A `write` that records the call and then raises the error `fail p`, if
there is one: a recipient whose `write` fails. -/
def Room.recordFailing (fail : ParticipantPointer → Option CppError)
    (p : ParticipantPointer) (msg : Message) (log : List (ParticipantPointer × Message)) :
    List (ParticipantPointer × Message) × Option CppError :=
  (log ++ [(p, msg)], fail p)

/-- The server states that can be reached: from the initial state by sessions
starting and by completions of their reads, with or without an error. -/
inductive World.Reachable : World → Prop where
  | init : World.Reachable World.init
  | start (w : World) (self : ParticipantPointer) :
      World.Reachable w → World.Reachable (w.start self)
  | read (w : World) (self : ParticipantPointer) (ec : Bool) (uninit data : Bytes) :
      World.Reachable w → World.Reachable (w.async_read_handler self ec uninit data).1

/-! ## Lemmas on the libc routines -/

theorem atoiDigits_zeros (acc : Nat) (zs : Bytes) (hz : ∀ z ∈ zs, z = 0) :
    atoiDigits acc zs = acc := by
  cases zs with
  | nil => rfl
  | cons z zs =>
    have : z = 0 := hz z (List.mem_cons_self _ _)
    subst this
    simp [atoiDigits, isdigit]

theorem atoiDigits_takeWhile (t : Bytes) (zs : Bytes) (hz : ∀ z ∈ zs, z = 0) :
    ∀ acc, atoiDigits acc (t.takeWhile (fun c => c != 0) ++ zs) = atoiDigits acc t := by
  induction t with
  | nil => intro acc; simpa [atoiDigits] using atoiDigits_zeros acc zs hz
  | cons c t ih =>
    intro acc
    by_cases hc : c = 0
    · subst hc
      simp [List.takeWhile, atoiDigits, isdigit, atoiDigits_zeros acc zs hz]
    · have : (c != 0) = true := by simpa using hc
      simp only [List.takeWhile, this, List.cons_append, atoiDigits]
      split
      · exact ih _
      · rfl

theorem atoi_zeros (zs : Bytes) (hz : ∀ z ∈ zs, z = 0) : atoi zs = 0 := by
  cases zs with
  | nil => rfl
  | cons z zs =>
    have : z = 0 := hz z (List.mem_cons_self _ _)
    subst this
    simp [atoi, List.dropWhile, isspace, atoiDigits, isdigit]

theorem atoi_takeWhile (t : Bytes) (zs : Bytes) (hz : ∀ z ∈ zs, z = 0) :
    atoi (t.takeWhile (fun c => c != 0) ++ zs) = atoi t := by
  induction t with
  | nil => simpa [atoi] using atoi_zeros zs hz
  | cons c t ih =>
    by_cases hc : c = 0
    · subst hc
      simp [List.takeWhile, atoi_zeros zs hz]
      simp [atoi, List.dropWhile, isspace, atoiDigits, isdigit]
    · have h0 : (c != 0) = true := by simpa using hc
      simp only [List.takeWhile, h0, List.cons_append]
      by_cases hs : isspace c = true
      · have e1 : ∀ x : Bytes, atoi (c :: x) = atoi x := by
          intro x; simp [atoi, List.dropWhile, hs]
        rw [e1, e1, ih]
      · have hs' : isspace c = false := by simpa using hs
        have e2 : ∀ x : Bytes, atoi (c :: x) =
            if c = 45 then - (atoiDigits 0 x : Int)
            else if c = 43 then (atoiDigits 0 x : Int)
            else (atoiDigits 0 (c :: x) : Int) := by
          intro x; simp [atoi, List.dropWhile, hs']
        rw [e2, e2]
        have e3 := atoiDigits_takeWhile t zs hz
        have e4 := atoiDigits_takeWhile (c :: t) zs hz 0
        simp only [List.takeWhile, h0, List.cons_append] at e4
        rw [e3, e4]

/-- What `decodeHeader` parses depends on the 4 header bytes only. -/
theorem atoi_strncpy (src : Bytes) (n : Nat) :
    atoi (strncpy src n ++ [0]) = atoi (src.take n) := by
  unfold strncpy
  simp only [List.append_assoc]
  apply atoi_takeWhile
  intro z hz
  simp only [List.mem_append, List.mem_replicate, List.mem_singleton] at hz
  rcases hz with h | h
  · exact h.2
  · exact h

set_option maxRecDepth 100000 in
theorem sprintf_4d_small : ∀ n : Nat, n < 513 →
    (sprintf_4d (toInt32 n)).length = 4 ∧ atoi (sprintf_4d (toInt32 n)) = (n : Int) ∧
      (sprintf_4d (toInt32 n)).all (fun c => c = 32 || isdigit c) = true := by
  decide

theorem atoi_no_number (t : Bytes) (h : hasLeadingNumber t = false) : atoi t = 0 := by
  unfold hasLeadingNumber at h
  unfold atoi
  cases hdw : t.dropWhile isspace with
  | nil => rfl
  | cons c cs =>
    rw [hdw] at h
    simp only at h ⊢
    by_cases h45 : c = 45
    · subst h45
      cases cs with
      | nil => simp [atoiDigits]
      | cons d ds =>
        have hd : isdigit d = false := by simpa using h
        simp [atoiDigits, hd]
    · by_cases h43 : c = 43
      · subst h43
        cases cs with
        | nil => simp [atoiDigits]
        | cons d ds =>
          have hd : isdigit d = false := by simpa using h
          simp [atoiDigits, hd]
      · have hc : isdigit c = false := by simpa [h45, h43] using h
        simp [h45, h43, atoiDigits, hc]

theorem take_min_length (b : Bytes) (k : Nat) : b.take (min b.length k) = b.take k := by
  by_cases h : b.length ≤ k
  · rw [Nat.min_eq_left h, List.take_of_length_le (Nat.le_refl _), List.take_of_length_le h]
  · rw [Nat.min_eq_right (by omega)]

theorem toInt32_small (n : Nat) (h : n < 2 ^ 31) : toInt32 n = (n : Int) := by
  unfold toInt32
  have h1 : n % 2 ^ 32 = n := Nat.mod_eq_of_lt (by omega)
  simp only [h1]
  rw [if_pos h]

theorem toSizeT_small (n : Nat) (h : n < 2 ^ 64) : toSizeT (n : Int) = n := by
  unfold toSizeT sizeMod
  have : ((n : Int) % ((2 ^ 64 : Nat) : Int)) = (n : Int) := by
    have := Nat.mod_eq_of_lt h
    omega
  rw [this]
  simp

/-! ## Lemmas on `Message` -/

namespace Message

theorem getNewBodyLength_eq (k : Nat) : getNewBodyLength k = min k 512 := by
  unfold getNewBodyLength maxBytes
  split <;> omega

theorem headerValue_eq (m : Message) : m.headerValue = atoi (m.data.take 4) := by
  unfold headerValue header
  exact atoi_strncpy m.data 4

/-- The layout of the buffer after `Message(std::string)`: header, body,
and the untouched rest of the buffer. -/
theorem new_data (uninit b : Bytes) :
    (Message.new uninit b).data =
      sprintf_4d (toInt32 (min b.length 512)) ++ (b.take (min b.length 512) ++
        uninit.drop (4 + min b.length 512)) := by
  have hn : min b.length 512 < 513 := by omega
  have h4 := (sprintf_4d_small _ hn).1
  unfold Message.new encodeHeader memcpy header
  simp only [getNewBodyLength_eq]
  have e1 : List.take 4 (sprintf_4d (toInt32 (min b.length 512)) ++ [0]) =
      sprintf_4d (toInt32 (min b.length 512)) := by
    rw [List.take_append_of_le_length (by omega)]
    exact List.take_of_length_le (by omega)
  have e2 : List.take (min b.length 512) (b ++ [0]) = List.take (min b.length 512) b :=
    List.take_append_of_le_length (by omega)
  simp only [List.take_zero, List.nil_append, Nat.zero_add, e1, e2]
  have e3 : ∀ x : Bytes, List.take 4 (sprintf_4d (toInt32 (min b.length 512)) ++ x) =
      sprintf_4d (toInt32 (min b.length 512)) := by
    intro x
    rw [List.take_append_of_le_length (by omega)]
    exact List.take_of_length_le (by omega)
  have e4 : ∀ x : Bytes, List.drop (4 + min b.length 512)
      (sprintf_4d (toInt32 (min b.length 512)) ++ x) = List.drop (min b.length 512) x := by
    intro x
    rw [← h4, List.drop_append]
  rw [e3, e4, List.drop_drop, List.append_assoc]

theorem new_bodyLength (uninit b : Bytes) :
    (Message.new uninit b).bodyLength_ = min b.length 512 := by
  unfold Message.new encodeHeader
  simp only [getNewBodyLength_eq]

/-- The constructor keeps the buffer at its 516 bytes. -/
theorem new_data_length (uninit b : Bytes) (hu : uninit.length = dataSize) :
    (Message.new uninit b).data.length = dataSize := by
  have hn : min b.length 512 < 513 := by omega
  have h4 := (sprintf_4d_small _ hn).1
  rw [new_data]
  simp only [List.length_append, h4, List.length_take, List.length_drop, hu, dataSize, header,
    maxBytes]
  omega

theorem new_header (uninit b : Bytes) :
    (Message.new uninit b).data.take 4 = sprintf_4d (toInt32 (min b.length 512)) := by
  have hn : min b.length 512 < 513 := by omega
  have h4 := (sprintf_4d_small _ hn).1
  rw [new_data, List.take_append_of_le_length (by omega)]
  exact List.take_of_length_le (by omega)

/-- Reading `header + n` bytes of a freshly constructed message, `n` its body
length: the header and the body. -/
theorem getData_mk (d : Bytes) (n : Nat) (hn : n ≤ 512) :
    getData { data := d, bodyLength_ := n } = .ok (d.take (4 + n)) := by
  simp only [getData, header, dataSize, maxBytes, sizeMod]
  have h1 : (4 + n) % 2 ^ 64 = 4 + n := Nat.mod_eq_of_lt (by omega)
  simp only [h1]
  rw [toInt32_small _ (by omega)]
  have h2 : ¬ (((4 + n : Nat) : Int) < 0) := by omega
  have h3 : ¬ (((4 + n : Nat) : Int).toNat > 4 + 512) := by simp; omega
  have h5 : ((4 + n : Nat) : Int).toNat = 4 + n := by omega
  rw [if_neg h2, if_neg h3, h5]

theorem getBody_mk (d : Bytes) (n : Nat) (hn : n ≤ 512) (hd : 4 ≤ d.length) :
    getBody { data := d, bodyLength_ := n } = .ok ((d.drop 4).take n) := by
  unfold getBody
  rw [getData_mk d n hn]
  simp only [header]
  have : ¬ (4 > (List.take (4 + n) d).length) := by
    simp only [List.length_take]; omega
  rw [if_neg this]
  congr 1
  rw [List.drop_take]
  simp

/-- Decoding a header whose value is in `0..512`. -/
theorem decodeHeader_ok (m : Message) (n : Nat) (hn : n ≤ 512) (h : m.headerValue = (n : Int)) :
    m.decodeHeader = ({ m with bodyLength_ := n }, true) := by
  unfold decodeHeader
  unfold headerValue at h
  simp only [h, maxBytes]
  have : ¬ ((n : Int) > ((512 : Nat) : Int)) := by omega
  rw [if_neg this, toSizeT_small n (by omega)]

theorem decodeHeader_new (uninit b : Bytes) :
    (Message.new uninit b).decodeHeader =
      ({ data := (Message.new uninit b).data, bodyLength_ := min b.length 512 }, true) := by
  have hn : min b.length 512 < 513 := by omega
  have hv : (Message.new uninit b).headerValue = ((min b.length 512 : Nat) : Int) := by
    rw [headerValue_eq, new_header]
    exact (sprintf_4d_small _ hn).2.1
  rw [decodeHeader_ok _ _ (by omega) hv]

theorem getBody_new (uninit b : Bytes) :
    getBody { data := (Message.new uninit b).data, bodyLength_ := min b.length 512 } =
      .ok (b.take 512) := by
  have hn : min b.length 512 < 513 := by omega
  have h4 := (sprintf_4d_small _ hn).1
  rw [getBody_mk _ _ (by omega)]
  · rw [new_data]
    congr 1
    rw [← h4, List.drop_left, List.take_append_of_le_length (by simp)]
    rw [List.take_take, Nat.min_self]
    exact take_min_length b 512
  · rw [new_data]
    simp only [List.length_append, h4]
    omega

end Message

/-! ## Lemmas on `Room` -/

theorem mem_setInsert (x y : ParticipantPointer) (l : List ParticipantPointer) :
    y ∈ setInsert x l ↔ y = x ∨ y ∈ l := by
  induction l with
  | nil => simp [setInsert]
  | cons z zs ih =>
    unfold setInsert
    split
    · simp
    · split
      · rename_i h; subst h; simp
      · simp only [List.mem_cons, ih]
        tauto

theorem isSet_setInsert (x : ParticipantPointer) (l : List ParticipantPointer) (h : IsSet l) :
    IsSet (setInsert x l) := by
  unfold IsSet at *
  induction l with
  | nil => simp [setInsert]
  | cons z zs ih =>
    have hz := List.pairwise_cons.mp h
    by_cases h1 : x < z
    · simp only [setInsert, h1, if_true]
      refine List.pairwise_cons.mpr ⟨?_, h⟩
      intro a ha
      rcases List.mem_cons.mp ha with rfl | ha
      · exact h1
      · exact Nat.lt_trans h1 (hz.1 a ha)
    · by_cases h2 : x = z
      · subst h2
        simp only [setInsert, Nat.lt_irrefl, if_true, if_false]
        exact h
      · simp only [setInsert, h1, h2, if_false]
        refine List.pairwise_cons.mpr ⟨?_, ih hz.2⟩
        intro a ha
        rcases (mem_setInsert x a zs).mp ha with rfl | ha
        · exact Nat.lt_of_le_of_ne (Nat.le_of_not_lt h1) (fun e => h2 e.symm)
        · exact hz.1 a ha

theorem setInsert_idem (x : ParticipantPointer) (l : List ParticipantPointer) :
    setInsert x (setInsert x l) = setInsert x l := by
  induction l with
  | nil => simp [setInsert]
  | cons z zs ih =>
    by_cases h1 : x < z
    · simp [setInsert, h1]
    · by_cases h2 : x = z
      · simp [setInsert, h2]
      · simp [setInsert, h1, h2, ih]

theorem mem_setErase (x y : ParticipantPointer) (l : List ParticipantPointer) (h : IsSet l) :
    y ∈ setErase x l ↔ y ≠ x ∧ y ∈ l := by
  unfold IsSet at h
  induction l with
  | nil => simp [setErase]
  | cons z zs ih =>
    have hz := List.pairwise_cons.mp h
    unfold setErase
    split
    · rename_i hxz
      subst hxz
      constructor
      · intro hy
        exact ⟨Nat.ne_of_gt (hz.1 y hy), List.mem_cons_of_mem _ hy⟩
      · rintro ⟨hne, hy⟩
        rcases List.mem_cons.mp hy with rfl | hy
        · exact absurd rfl hne
        · exact hy
    · rename_i hxz
      simp only [List.mem_cons, ih hz.2]
      constructor
      · rintro (rfl | ⟨h1, h2⟩)
        · exact ⟨fun e => hxz e.symm, Or.inl rfl⟩
        · exact ⟨h1, Or.inr h2⟩
      · rintro ⟨h1, rfl | h2⟩
        · exact Or.inl rfl
        · exact Or.inr ⟨h1, h2⟩

theorem isSet_setErase (x : ParticipantPointer) (l : List ParticipantPointer) (h : IsSet l) :
    IsSet (setErase x l) := by
  unfold IsSet at *
  induction l with
  | nil => simp [setErase]
  | cons z zs ih =>
    have hz := List.pairwise_cons.mp h
    unfold setErase
    split
    · exact hz.2
    · refine List.pairwise_cons.mpr ⟨?_, ih hz.2⟩
      intro a ha
      exact hz.1 a (((mem_setErase x a zs hz.2).mp ha).2)

theorem count_eq_one_of_nodup_mem {α : Type} [BEq α] [LawfulBEq α] {a : α} {l : List α}
    (hn : l.Nodup) (h : a ∈ l) : l.count a = 1 := by
  induction l with
  | nil => cases h
  | cons b l ih =>
    rw [List.nodup_cons] at hn
    rw [List.count_cons]
    by_cases hb : b = a
    · subst hb
      simp [List.count_eq_zero_of_not_mem hn.1]
    · have hin : a ∈ l := by
        rcases List.mem_cons.mp h with e | e
        · exact absurd e.symm hb
        · exact e
      simp [hb, ih hn.2 hin]

theorem IsSet.nodup {l : List ParticipantPointer} (h : IsSet l) : l.Nodup := by
  unfold IsSet at h
  exact h.imp (fun hab => Nat.ne_of_lt hab)

namespace Room

theorem fanOut_record (A : ParticipantPointer) (msg : Message) (ps : List ParticipantPointer) :
    ∀ log, fanOut recordWrite A msg ps log =
      (log ++ (ps.filter (fun p => decide (A ≠ p))).map (fun p => (p, msg)), none) := by
  induction ps with
  | nil => intro log; simp [fanOut]
  | cons p ps ih =>
    intro log
    by_cases h : A = p
    · subst h
      simp [fanOut, ih]
    · simp [fanOut, h, recordWrite, ih]

theorem drain_nil_queue {σ : Type}
    (write : ParticipantPointer → Message → σ → σ × Option CppError)
    (A : ParticipantPointer) (ps : List ParticipantPointer) (m : Message) (s : σ) :
    (drain write A ps [m] s).1 = [] := by
  unfold drain
  split
  · simp [drain]
  · rfl

/-- The calls of `write` a delivery makes in a room with an empty queue: one
per participant other than the sender, in set order, each with the message. -/
theorem writeCalls_eq (r : Room) (A : ParticipantPointer) (m : Message)
    (hq : r.messageQueue = []) :
    r.writeCalls A m = (r.participants.filter (fun p => decide (A ≠ p))).map (fun p => (p, m)) := by
  unfold writeCalls deliver
  simp [hq, drain, fanOut_record]

theorem valid_empty : empty.Valid := by
  unfold Valid empty IsSet
  simp

theorem valid_join (r : Room) (p : ParticipantPointer) (h : r.Valid) : (r.join p).Valid :=
  ⟨h.1, isSet_setInsert p r.participants h.2⟩

theorem valid_leave (r : Room) (p : ParticipantPointer) (h : r.Valid) : (r.leave p).Valid :=
  ⟨h.1, isSet_setErase p r.participants h.2⟩

/-- Whatever `write` does, a delivery leaves the room between calls again:
the queue is empty and the participants are as before. -/
theorem valid_deliver {σ : Type}
    (write : ParticipantPointer → Message → σ → σ × Option CppError)
    (r : Room) (A : ParticipantPointer) (m : Message) (s : σ) (h : r.Valid) :
    (deliver write r A m s).1.Valid ∧ (deliver write r A m s).1.participants = r.participants := by
  unfold deliver
  have := drain_nil_queue write A r.participants m s
  rw [h.1, List.nil_append]
  generalize drain write A r.participants [m] s = res at this
  obtain ⟨q, s1, e⟩ := res
  simp only at this
  subst this
  exact ⟨⟨rfl, h.2⟩, rfl⟩

end Room

/-! ## The message codec: round trip, truncation, rejection -/

/-- C1. Round trip: for every byte string `b` of at most 512 bytes, building
`Message(b)` and then calling `decodeHeader()` and `getBody()` gives the result
`true` and the body `b`, and `getBodyLength()` is the length of `b`. -/
theorem roundtrip_decode_encode (uninit b : Bytes) (hb : b.length ≤ 512) :
    ((Message.new uninit b).decodeHeader).2 = true ∧
      ((Message.new uninit b).decodeHeader).1.getBody = .ok b ∧
      ((Message.new uninit b).decodeHeader).1.getBodyLength = b.length := by
  rw [Message.decodeHeader_new]
  refine ⟨rfl, ?_, ?_⟩
  · rw [Message.getBody_new, List.take_of_length_le hb]
  · simp only [Message.getBodyLength]
    omega

theorem roundtrip_decode_encode_witness :
    (ascii "hello").length ≤ 512 ∧
      ((Message.new (List.replicate 516 0) (ascii "hello")).decodeHeader).2 = true ∧
      ((Message.new (List.replicate 516 0) (ascii "hello")).decodeHeader).1.getBody
        = .ok (ascii "hello") ∧
      ((Message.new (List.replicate 516 0) (ascii "hello")).decodeHeader).1.getBodyLength
        = (ascii "hello").length :=
  ⟨by decide, roundtrip_decode_encode (List.replicate 516 0) (ascii "hello") (by decide)⟩

/-- C2. Truncation: for every byte string `b` longer than 512 bytes,
`Message(b)` followed by `decodeHeader()` and `getBody()` gives the result
`true` and, without an error, a body of exactly 512 bytes, the first 512 bytes
of `b`. -/
theorem truncation_to_maxBytes (uninit b : Bytes) (hb : b.length > 512) :
    ((Message.new uninit b).decodeHeader).2 = true ∧
      ((Message.new uninit b).decodeHeader).1.getBody = .ok (b.take 512) ∧
      (b.take 512).length = 512 ∧
      ((Message.new uninit b).decodeHeader).1.getBodyLength = 512 := by
  rw [Message.decodeHeader_new]
  refine ⟨rfl, Message.getBody_new uninit b, ?_, ?_⟩
  · rw [List.length_take]
    omega
  · simp only [Message.getBodyLength]
    omega

theorem truncation_to_maxBytes_witness :
    (List.replicate 600 120).length > 512 ∧
      ((Message.new (List.replicate 516 0) (List.replicate 600 120)).decodeHeader).2 = true ∧
      ((Message.new (List.replicate 516 0) (List.replicate 600 120)).decodeHeader).1.getBody
        = .ok ((List.replicate 600 120).take 512) ∧
      ((List.replicate 600 120).take 512).length = 512 ∧
      ((Message.new (List.replicate 516 0) (List.replicate 600 120)).decodeHeader).1.getBodyLength
        = 512 :=
  ⟨by rw [List.length_replicate]; decide,
    truncation_to_maxBytes (List.replicate 516 0) (List.replicate 600 120)
      (by rw [List.length_replicate]; decide)⟩

/-- C3. Rejection: for every message whose 4 header bytes parse to a value
above 512, `decodeHeader()` returns `false` and sets the body length to 0, and
`getBody()` afterwards returns the empty string. -/
theorem rejection_of_large_header (m : Message) (hd : m.data.length = Message.dataSize)
    (h : m.headerValue > 512) :
    m.decodeHeader = ({ m with bodyLength_ := 0 }, false) ∧
      m.decodeHeader.1.bodyLength_ = 0 ∧
      m.decodeHeader.1.getBody = .ok [] := by
  have e : m.decodeHeader = ({ m with bodyLength_ := 0 }, false) := by
    unfold Message.decodeHeader
    unfold Message.headerValue at h
    simp only [Message.maxBytes]
    rw [if_pos (by simpa using h)]
  rw [e]
  refine ⟨rfl, rfl, ?_⟩
  rw [Message.getBody_mk _ _ (by omega)]
  · simp
  · rw [hd]; decide

set_option maxRecDepth 100000 in
theorem rejection_of_large_header_witness :
    (⟨ascii "0600" ++ List.replicate 512 65, 7⟩ : Message).data.length = Message.dataSize ∧
      (⟨ascii "0600" ++ List.replicate 512 65, 7⟩ : Message).headerValue > 512 ∧
      (⟨ascii "0600" ++ List.replicate 512 65, 7⟩ : Message).decodeHeader
        = (⟨ascii "0600" ++ List.replicate 512 65, 0⟩, false) ∧
      (⟨ascii "0600" ++ List.replicate 512 65, 7⟩ : Message).decodeHeader.1.bodyLength_ = 0 ∧
      (⟨ascii "0600" ++ List.replicate 512 65, 7⟩ : Message).decodeHeader.1.getBody = .ok [] :=
  ⟨by decide, by decide,
    rejection_of_large_header ⟨ascii "0600" ++ List.replicate 512 65, 7⟩ (by decide) (by decide)⟩

/-! ## The room: broadcast -/

/-- C4. Broadcast exclusion: in every room state between calls, for every
sender `A` and message `m`, `Room::deliver(A, m)` calls `write(m)` exactly once
on each registered participant other than `A`, never calls `write` on `A`, and
calls nothing else; for participants `{A, B, C}` the calls are exactly
`B.write(m)` and `C.write(m)`. -/
theorem broadcast_exclusion (r : Room) (A : ParticipantPointer) (m : Message) (hv : r.Valid) :
    (∀ p, p ∈ r.participants → p ≠ A → (r.writeCalls A m).count (p, m) = 1) ∧
      (∀ msg, (A, msg) ∉ r.writeCalls A m) ∧
      (∀ c, c ∈ r.writeCalls A m → c.1 ∈ r.participants ∧ c.2 = m) ∧
      (∀ B C, A ≠ B → A ≠ C → B ≠ C →
        (∀ x, x ∈ r.participants ↔ x = A ∨ x = B ∨ x = C) →
        (r.writeCalls A m).length = 2 ∧
          ∀ c, c ∈ r.writeCalls A m ↔ c = (B, m) ∨ c = (C, m)) := by
  have hcalls := Room.writeCalls_eq r A m hv.1
  have hmem : ∀ c, c ∈ r.writeCalls A m ↔ c.1 ∈ r.participants ∧ c.1 ≠ A ∧ c.2 = m := by
    intro c
    rw [hcalls]
    simp only [List.mem_map, List.mem_filter, decide_eq_true_eq]
    constructor
    · rintro ⟨p, ⟨hp, hne⟩, rfl⟩
      exact ⟨hp, fun e => hne e.symm, rfl⟩
    · rintro ⟨h1, h2, h3⟩
      exact ⟨c.1, ⟨h1, fun e => h2 e.symm⟩, by rw [← h3]⟩
  have hnodup : (r.writeCalls A m).Nodup := by
    rw [hcalls]
    apply List.Nodup.map
    · intro a b hab
      exact (Prod.mk.inj hab).1
    · exact (IsSet.nodup hv.2).filter _
  refine ⟨?_, ?_, ?_, ?_⟩
  · intro p hp hne
    exact count_eq_one_of_nodup_mem hnodup ((hmem (p, m)).mpr ⟨hp, hne, rfl⟩)
  · intro msg hin
    exact ((hmem (A, msg)).mp hin).2.1 rfl
  · intro c hc
    exact ⟨((hmem c).mp hc).1, ((hmem c).mp hc).2.2⟩
  · intro B C hAB hAC hBC hset
    have hiff : ∀ c, c ∈ r.writeCalls A m ↔ c = (B, m) ∨ c = (C, m) := by
      intro c
      rw [hmem, hset]
      constructor
      · rintro ⟨h1, h2, h3⟩
        rcases h1 with h1 | h1 | h1
        · exact absurd h1 h2
        · exact Or.inl (Prod.ext h1 h3)
        · exact Or.inr (Prod.ext h1 h3)
      · rintro (rfl | rfl)
        · exact ⟨Or.inr (Or.inl rfl), fun e => hAB e.symm, rfl⟩
        · exact ⟨Or.inr (Or.inr rfl), fun e => hAC e.symm, rfl⟩
    refine ⟨?_, hiff⟩
    have hfs : (r.writeCalls A m).toFinset = {(B, m), (C, m)} := by
      ext c
      simp only [List.mem_toFinset, hiff, Finset.mem_insert, Finset.mem_singleton]
    have hcard := List.toFinset_card_of_nodup hnodup
    rw [hfs, Finset.card_pair (fun e => hBC (Prod.mk.inj e).1)] at hcard
    exact hcard.symm

theorem broadcast_exclusion_witness :
    (((Room.empty.join 10).join 30).join 20).Valid ∧
      (((Room.empty.join 10).join 30).join 20).writeCalls 10 (Message.new [] (ascii "hi"))
        = [(20, Message.new [] (ascii "hi")), (30, Message.new [] (ascii "hi"))] ∧
      ((((Room.empty.join 10).join 30).join 20).writeCalls 10
        (Message.new [] (ascii "hi"))).length = 2 :=
  ⟨by decide, by decide,
    ((broadcast_exclusion (((Room.empty.join 10).join 30).join 20) 10
      (Message.new [] (ascii "hi")) (by decide)).2.2.2 20 30 (by decide) (by decide) (by decide)
      (by
        intro x
        have e : (((Room.empty.join 10).join 30).join 20).participants = [10, 20, 30] := by
          decide
        rw [e]
        simp)).1⟩

/-- C10. Join idempotence: in every room state, `join(X)` leaves `X`
registered, a second `join(X)` changes nothing, `X` is present exactly once,
and every other participant is a member after the join exactly when it was
one before. -/
theorem join_idempotent (r : Room) (X : ParticipantPointer) (hs : IsSet r.participants) :
    X ∈ (r.join X).participants ∧
      (r.join X).join X = r.join X ∧
      (r.join X).participants.count X = 1 ∧
      (∀ y, y ≠ X → (y ∈ (r.join X).participants ↔ y ∈ r.participants)) ∧
      (r.join X).messageQueue = r.messageQueue := by
  have hmem : X ∈ (r.join X).participants := (mem_setInsert X X r.participants).mpr (Or.inl rfl)
  refine ⟨hmem, ?_, ?_, ?_, rfl⟩
  · unfold Room.join
    simp only [setInsert_idem]
  · exact count_eq_one_of_nodup_mem (IsSet.nodup (isSet_setInsert X r.participants hs)) hmem
  · intro y hy
    unfold Room.join
    simp only [mem_setInsert, hy, false_or]

theorem join_idempotent_witness :
    IsSet ((Room.empty.join 7).join 3).participants ∧
      ((Room.empty.join 7).join 3).join 7 = (Room.empty.join 7).join 3 ∧
      ((((Room.empty.join 7).join 3).join 5).join 5).participants = [3, 5, 7] ∧
      (((Room.empty.join 7).join 3).join 5).participants.count 5 = 1 :=
  ⟨by decide, by decide, by decide,
    (join_idempotent ((Room.empty.join 7).join 3) 5 (by decide)).2.2.1⟩

/-! ## The message codec: header format and header parsing -/

theorem Message.getData_new (uninit b : Bytes) :
    (Message.new uninit b).getData =
      .ok (sprintf_4d (toInt32 (min b.length 512)) ++ b.take (min b.length 512)) := by
  have hn : min b.length 512 < 513 := by omega
  have h4 := (sprintf_4d_small _ hn).1
  have e : Message.new uninit b =
      { data := (Message.new uninit b).data, bodyLength_ := min b.length 512 } := by
    rw [← Message.new_bodyLength uninit b]
  rw [e, Message.getData_mk _ _ (by omega), Message.new_data]
  congr 1
  have h5 : (List.take (min b.length 512) b).length = min b.length 512 := by
    rw [List.length_take]; omega
  rw [← List.append_assoc, List.take_append_of_le_length (by rw [List.length_append, h4, h5])]
  exact List.take_of_length_le (by rw [List.length_append, h4, h5])

/-- C6. At `Message("hello")` and at the empty body, the header `encodeHeader`
writes is padded with spaces, not with zeros: the frames are `"   5hello"` and
`"   0"`, not `"0005hello"` and `"0000"`. -/
theorem header_is_space_padded (uninit : Bytes) :
    (Message.new uninit (ascii "hello")).getData = .ok (ascii "   5hello") ∧
      (Message.new uninit (ascii "")).getData = .ok (ascii "   0") ∧
      ascii "   5hello" ≠ ascii "0005hello" ∧ ascii "   0" ≠ ascii "0000" := by
  refine ⟨?_, ?_, by decide, by decide⟩
  · rw [Message.getData_new]; exact congrArg _ (by decide)
  · rw [Message.getData_new]; exact congrArg _ (by decide)

/-- C7. Header invariant after encode: for every byte string `b`, the frame
`getData()` of `Message(b)` has length `4 + min(len b, 512)`, its first 4 bytes
are 4 ASCII characters (spaces and digits) whose decimal value is
`min(len b, 512)`, and the remaining bytes are the first `min(len b, 512)`
bytes of `b`. -/
theorem frame_layout_after_encode (uninit b : Bytes) :
    ∃ frame, (Message.new uninit b).getData = .ok frame ∧
      frame.length = 4 + min b.length 512 ∧
      (frame.take 4).length = 4 ∧
      (∀ c ∈ frame.take 4, c = 32 ∨ isdigit c = true) ∧
      atoi (frame.take 4) = ((min b.length 512 : Nat) : Int) ∧
      frame.drop 4 = b.take (min b.length 512) := by
  have hn : min b.length 512 < 513 := by omega
  obtain ⟨h4, hval, hchars⟩ := sprintf_4d_small _ hn
  have h5 : (List.take (min b.length 512) b).length = min b.length 512 := by
    rw [List.length_take]; omega
  have ht : List.take 4 (sprintf_4d (toInt32 (min b.length 512)) ++ b.take (min b.length 512)) =
      sprintf_4d (toInt32 (min b.length 512)) := by
    rw [List.take_append_of_le_length (by omega)]
    exact List.take_of_length_le (by omega)
  refine ⟨_, Message.getData_new uninit b, ?_, ?_, ?_, ?_, ?_⟩
  · rw [List.length_append, h4, h5]
  · rw [ht, h4]
  · intro c hc
    rw [ht] at hc
    have := List.all_eq_true.mp hchars c hc
    simpa using this
  · rw [ht, hval]
  · rw [← h4, List.drop_left]

theorem Message.getBody_of_getData_error (m : Message) (e : CppError)
    (h : m.getData = .error e) : m.getBody = .error e := by
  unfold Message.getBody
  rw [h]

theorem Message.headerValue_minus5 (rest : Bytes) (bl : Nat) :
    (⟨ascii "-005" ++ rest, bl⟩ : Message).headerValue = -5 := by
  rw [Message.headerValue_eq]
  have : List.take 4 (ascii "-005" ++ rest) = ascii "-005" := by
    rw [List.take_append_of_le_length (by decide)]
    decide
  simp only [this]
  decide

theorem Message.decodeHeader_minus5 (rest : Bytes) (bl : Nat) :
    (⟨ascii "-005" ++ rest, bl⟩ : Message).decodeHeader
      = (⟨ascii "-005" ++ rest, 2 ^ 64 - 5⟩, true) := by
  have hv := Message.headerValue_minus5 rest bl
  unfold Message.decodeHeader
  unfold Message.headerValue at hv
  simp only [hv]
  rw [if_neg (by decide)]
  have : toSizeT (-5) = 2 ^ 64 - 5 := by decide
  rw [this]

theorem Message.getData_minus5 (rest : Bytes) :
    (⟨ascii "-005" ++ rest, 2 ^ 64 - 5⟩ : Message).getData = .error .length_error := by
  simp only [Message.getData]
  have : toInt32 ((Message.header + (2 ^ 64 - 5)) % sizeMod) = -1 := by decide
  rw [this]
  rfl

/-- C8. At a message whose header bytes are `"-005"`, `decodeHeader()` accepts
the header (result `true`) and leaves the message with the body length
`2^64 - 5`, far above 512; `getData()` and `getBody()` of that message then
fail instead of returning a string. -/
theorem negative_header_escapes_bound (rest : Bytes) (bl : Nat) :
    (⟨ascii "-005" ++ rest, bl⟩ : Message).decodeHeader
        = (⟨ascii "-005" ++ rest, 2 ^ 64 - 5⟩, true) ∧
      ¬ ((⟨ascii "-005" ++ rest, 2 ^ 64 - 5⟩ : Message).bodyLength_ ≤ 512) ∧
      (⟨ascii "-005" ++ rest, 2 ^ 64 - 5⟩ : Message).getData = .error .length_error ∧
      (⟨ascii "-005" ++ rest, 2 ^ 64 - 5⟩ : Message).getBody = .error .length_error := by
  have hd := Message.getData_minus5 rest
  have hb : ¬ ((2 : Nat) ^ 64 - 5 ≤ 512) := by decide
  exact ⟨Message.decodeHeader_minus5 rest bl, hb, hd,
    Message.getBody_of_getData_error _ _ hd⟩

/-- C9. Non-numeric header: for every message whose 4 header bytes hold no
leading decimal number, `decodeHeader()` parses the header value 0, sets the
body length to 0 and returns normally, and `getBody()` returns the empty
string. -/
theorem non_numeric_header_decodes_to_zero (m : Message)
    (hd : m.data.length = Message.dataSize)
    (h : hasLeadingNumber (m.data.take 4) = false) :
    m.headerValue = 0 ∧
      m.decodeHeader = ({ m with bodyLength_ := 0 }, true) ∧
      m.decodeHeader.1.bodyLength_ = 0 ∧
      m.decodeHeader.1.getBody = .ok [] := by
  have hv : m.headerValue = ((0 : Nat) : Int) := by
    rw [Message.headerValue_eq]
    exact atoi_no_number _ h
  have e := Message.decodeHeader_ok m 0 (by omega) hv
  rw [e]
  refine ⟨hv, rfl, rfl, ?_⟩
  rw [Message.getBody_mk _ _ (by omega)]
  · simp
  · rw [hd]; decide

set_option maxRecDepth 100000 in
theorem non_numeric_header_decodes_to_zero_witness :
    (⟨ascii "ab1\n" ++ List.replicate 512 65, 9⟩ : Message).data.length = Message.dataSize ∧
      hasLeadingNumber ((⟨ascii "ab1\n" ++ List.replicate 512 65, 9⟩ : Message).data.take 4)
        = false ∧
      (⟨ascii "ab1\n" ++ List.replicate 512 65, 9⟩ : Message).headerValue = 0 ∧
      (⟨ascii "ab1\n" ++ List.replicate 512 65, 9⟩ : Message).decodeHeader
        = (⟨ascii "ab1\n" ++ List.replicate 512 65, 0⟩, true) ∧
      (⟨ascii "ab1\n" ++ List.replicate 512 65, 9⟩ : Message).decodeHeader.1.bodyLength_ = 0 ∧
      (⟨ascii "ab1\n" ++ List.replicate 512 65, 9⟩ : Message).decodeHeader.1.getBody = .ok [] :=
  ⟨by decide, by decide,
    non_numeric_header_decodes_to_zero ⟨ascii "ab1\n" ++ List.replicate 512 65, 9⟩
      (by decide) (by decide)⟩

/-! ## Sessions: the scenario of two sessions -/

/-- Writing a freshly constructed message to a session with an empty queue:
one socket write, of the first 512 bytes of the body. -/
theorem Session.write_new (s : Session) (hq : s.messageQueue = []) (uninit b : Bytes) :
    s.write (Message.new uninit b) =
      ({ messageQueue := [], socketWrites := s.socketWrites ++ [b.take 512] }, none) := by
  unfold Session.write
  rw [hq, List.nil_append]
  unfold Session.writeLoop
  rw [Message.decodeHeader_new]
  simp only [Message.getBody_new, Session.async_write, Message.getBodyLength, Session.writeLoop]
  have : List.take (min b.length 512) (List.take 512 b) = List.take 512 b := by
    rw [List.take_take]
    have : min (min b.length 512) 512 = min b.length 512 := by omega
    rw [this]
    exact take_min_length b 512
  rw [this]

theorem World.fanOut_new (uninit b : Bytes) (A : ParticipantPointer)
    (ps : List ParticipantPointer) (hnd : ps.Nodup) :
    ∀ sessions : ParticipantPointer → Session, (∀ p, (sessions p).messageQueue = []) →
      Room.fanOut World.sessionWrite A (Message.new uninit b) ps sessions =
        (World.afterFanOut sessions ps A b, none) := by
  induction ps with
  | nil =>
    intro sessions _
    simp only [Room.fanOut]
    have e : World.afterFanOut sessions [] A b = sessions := by
      funext p
      simp [World.afterFanOut]
    rw [e]
  | cons q ps ih =>
    intro sessions hq
    rw [List.nodup_cons] at hnd
    by_cases hA : A = q
    · subst hA
      simp only [Room.fanOut, ne_eq, not_true_eq_false, if_false]
      rw [ih hnd.2 sessions hq]
      congr 1
      funext p
      unfold World.afterFanOut
      by_cases hp : p = A
      · simp [hp]
      · simp [hp]
    · simp only [Room.fanOut, ne_eq, hA, not_false_eq_true, if_true]
      have hw : World.sessionWrite q (Message.new uninit b) sessions =
          (Function.update sessions q
            { messageQueue := [],
              socketWrites := (sessions q).socketWrites ++ [b.take 512] }, none) := by
        unfold World.sessionWrite
        rw [Session.write_new _ (hq q)]
      rw [hw]
      simp only
      rw [ih hnd.2]
      · congr 1
        funext p
        unfold World.afterFanOut
        by_cases hp : p = q
        · subst hp
          have hqA : p ≠ A := fun e => hA e.symm
          simp [hnd.1, hqA]
        · simp [hp, Function.update_noteq hp]
      · intro p
        by_cases hp : p = q
        · subst hp; simp
        · rw [Function.update_noteq hp]; exact hq p

/-- A delivery of a freshly constructed message on a server between calls. -/
theorem World.deliver_new (w : World) (hv : w.room.Valid)
    (hq : ∀ p, (w.sessions p).messageQueue = []) (self : ParticipantPointer)
    (uninit b : Bytes) :
    w.deliver self (Message.new uninit b) =
      ({ room := w.room,
         sessions := World.afterFanOut w.sessions w.room.participants self b }, none) := by
  unfold World.deliver Room.deliver
  rw [hv.1, List.nil_append]
  unfold Room.drain
  rw [World.fanOut_new uninit b self _ (IsSet.nodup hv.2) w.sessions hq]
  simp only [Room.drain]
  congr 1
  cases w with
  | mk room sessions =>
    cases room with
    | mk q ps =>
      simp only [Room.Valid] at hv
      simp only [hv.1]

set_option maxRecDepth 100000 in
/-- C5, as stated, fails: with sessions 1 and 2 in the room and the line
`"hi\n"` read from session 1, session 2 is not sent a frame that decodes to
the body `"hi"`: neither do the bytes written to its socket decode to `"hi"`,
nor does the message handed to its `write`. -/
theorem scenario_hi_body_is_not_hi :
    ¬ ((∃ frame ∈ ((twoSessionScenario 1 2 (List.replicate 516 0)
            (ascii "hi\n")).1.sessions 2).socketWrites,
          ∃ ok, decode (List.replicate 516 0) frame = .ok (ascii "hi", ok)) ∨
        (∃ c ∈ ((World.init.start 1).start 2).room.writeCalls 1
            (Message.new (List.replicate 516 0) (ascii "hi\n")),
          c.1 = 2 ∧ c.2.decodeHeader.1.getBody = .ok (ascii "hi"))) := by
  decide

/-- C5, amended. With two sessions `S1` and `S2` joined to the room, when the
read of `S1` completes with the line `"hi\n"`, the message handed to the
`write` of `S2` decodes to the body `"hi\n"` (the line with its newline), `S2`
is sent exactly these 3 bytes in one socket write, and `S1` is sent nothing. -/
theorem scenario_hi_sends_line (S1 S2 : ParticipantPointer) (uninit : Bytes) (hne : S1 ≠ S2) :
    (twoSessionScenario S1 S2 uninit (ascii "hi\n")).2 = none ∧
      ((twoSessionScenario S1 S2 uninit (ascii "hi\n")).1.sessions S2).socketWrites
        = [ascii "hi\n"] ∧
      ((twoSessionScenario S1 S2 uninit (ascii "hi\n")).1.sessions S1).socketWrites = [] ∧
      ((World.init.start S1).start S2).room.writeCalls S1 (Message.new uninit (ascii "hi\n"))
        = [(S2, Message.new uninit (ascii "hi\n"))] ∧
      (Message.new uninit (ascii "hi\n")).decodeHeader.2 = true ∧
      (Message.new uninit (ascii "hi\n")).decodeHeader.1.getBody = .ok (ascii "hi\n") := by
  have hv : ((World.init.start S1).start S2).room.Valid :=
    Room.valid_join _ _ (Room.valid_join _ _ Room.valid_empty)
  have hq : ∀ p, (((World.init.start S1).start S2).sessions p).messageQueue = [] := by
    intro p; rfl
  have hps : ∀ x, x ∈ ((World.init.start S1).start S2).room.participants ↔ x = S2 ∨ x = S1 := by
    intro x
    simp [World.start, World.init, Room.join, Room.empty, mem_setInsert]
  have hrun : twoSessionScenario S1 S2 uninit (ascii "hi\n") =
      ({ room := ((World.init.start S1).start S2).room,
         sessions := World.afterFanOut ((World.init.start S1).start S2).sessions
           ((World.init.start S1).start S2).room.participants S1 (ascii "hi\n") }, none) := by
    unfold twoSessionScenario World.async_read_handler
    simp only [Bool.not_false, if_true]
    exact World.deliver_new _ hv hq S1 uninit (ascii "hi\n")
  have hdec := Message.decodeHeader_new uninit (ascii "hi\n")
  have hbody : (Message.new uninit (ascii "hi\n")).decodeHeader.1.getBody
      = .ok (ascii "hi\n") := by
    rw [hdec, Message.getBody_new]
    exact congrArg _ (by decide)
  rw [hrun]
  refine ⟨rfl, ?_, ?_, ?_, by rw [hdec], hbody⟩
  · simp only [World.afterFanOut]
    rw [if_pos ⟨(hps S2).mpr (Or.inl rfl), fun e => hne e.symm⟩]
    rfl
  · simp only [World.afterFanOut]
    rw [if_neg (fun h => h.2 rfl)]
    rfl
  · rw [Room.writeCalls_eq _ _ _ hv.1]
    simp only [World.start, World.init, Room.join, Room.empty, setInsert]
    by_cases h1 : S2 < S1
    · simp [h1, hne]
    · have h2 : ¬ S2 = S1 := fun e => hne e.symm
      simp [h1, h2, hne]

theorem scenario_hi_sends_line_witness :
    (1 : ParticipantPointer) ≠ 2 ∧
      ((twoSessionScenario 1 2 (List.replicate 516 0) (ascii "hi\n")).1.sessions 2).socketWrites
        = [ascii "hi\n"] ∧
      ((twoSessionScenario 1 2 (List.replicate 516 0) (ascii "hi\n")).1.sessions 1).socketWrites
        = [] :=
  ⟨by decide,
    (scenario_hi_sends_line 1 2 (List.replicate 516 0) (by decide)).2.1,
    (scenario_hi_sends_line 1 2 (List.replicate 516 0) (by decide)).2.2.1⟩

/-! ## The room: leaving, and the participant cap -/

theorem setErase_of_not_mem (x : ParticipantPointer) (l : List ParticipantPointer)
    (h : x ∉ l) : setErase x l = l := by
  induction l with
  | nil => rfl
  | cons y ys ih =>
    have h1 : x ≠ y := fun e => h (e ▸ List.mem_cons_self _ _)
    have h2 : x ∉ ys := fun e => h (List.mem_cons_of_mem _ e)
    simp [setErase, h1, ih h2]

theorem length_setInsert_of_not_mem (x : ParticipantPointer) (l : List ParticipantPointer)
    (h : x ∉ l) : (setInsert x l).length = l.length + 1 := by
  induction l with
  | nil => rfl
  | cons y ys ih =>
    have h1 : x ≠ y := fun e => h (e ▸ List.mem_cons_self _ _)
    have h2 : x ∉ ys := fun e => h (List.mem_cons_of_mem _ e)
    by_cases hlt : x < y
    · simp [setInsert, hlt]
    · simp [setInsert, hlt, h1, ih h2]

theorem length_setErase_of_mem (x : ParticipantPointer) (l : List ParticipantPointer)
    (h : x ∈ l) : (setErase x l).length + 1 = l.length := by
  induction l with
  | nil => cases h
  | cons y ys ih =>
    by_cases hxy : x = y
    · simp [setErase, hxy]
    · have hin : x ∈ ys := by
        rcases List.mem_cons.mp h with e | e
        · exact absurd e hxy
        · exact e
      simp only [setErase, hxy, if_false, List.length_cons]
      rw [ih hin]

/-- C11. Leave: in every room state, `leave(X)` for a participant `X` that is
not registered leaves the room unchanged; for a registered `X` it removes `X`
and keeps exactly the other members, each still once. -/
theorem leave_removes_exactly (r : Room) (X : ParticipantPointer) (hs : IsSet r.participants) :
    (X ∉ r.participants → r.leave X = r) ∧
      (X ∈ r.participants →
        X ∉ (r.leave X).participants ∧
        (∀ y, y ≠ X → (y ∈ (r.leave X).participants ↔ y ∈ r.participants)) ∧
        (r.leave X).participants.length + 1 = r.participants.length) ∧
      IsSet (r.leave X).participants ∧
      (r.leave X).messageQueue = r.messageQueue := by
  refine ⟨?_, ?_, isSet_setErase X r.participants hs, rfl⟩
  · intro h
    unfold Room.leave
    rw [setErase_of_not_mem X r.participants h]
  · intro h
    refine ⟨?_, ?_, ?_⟩
    · intro hin
      exact ((mem_setErase X X r.participants hs).mp hin).1 rfl
    · intro y hy
      unfold Room.leave
      simp only [mem_setErase X y r.participants hs, hy, ne_eq, not_false_eq_true, true_and]
    · exact length_setErase_of_mem X r.participants h

theorem leave_removes_exactly_witness :
    IsSet ((Room.empty.join 7).join 3).participants ∧
      ((Room.empty.join 7).join 3).leave 5 = (Room.empty.join 7).join 3 ∧
      (((Room.empty.join 7).join 3).leave 7).participants = [3] :=
  ⟨by decide,
    (leave_removes_exactly ((Room.empty.join 7).join 3) 5 (by decide)).1 (by decide),
    by decide⟩

/-- C18. Participant cap not enforced: `join` never refuses; for a room that
already holds `maxParticipants` = 100 distinct participants, `join` of a new
participant gives a room with 101 participants, the new one among them. -/
theorem join_ignores_maxParticipants (r : Room) (X : ParticipantPointer)
    (hs : IsSet r.participants) (hfull : r.participants.length = Room.maxParticipants)
    (hnew : X ∉ r.participants) :
    (r.join X).participants.length = 101 ∧
      X ∈ (r.join X).participants ∧
      (∀ y, y ∈ r.participants → y ∈ (r.join X).participants) ∧
      IsSet (r.join X).participants := by
  refine ⟨?_, ?_, ?_, isSet_setInsert X r.participants hs⟩
  · unfold Room.join
    simp only
    rw [length_setInsert_of_not_mem X r.participants hnew, hfull]
    rfl
  · exact (mem_setInsert X X r.participants).mpr (Or.inl rfl)
  · intro y hy
    exact (mem_setInsert X y r.participants).mpr (Or.inr hy)

set_option maxRecDepth 100000 in
theorem join_ignores_maxParticipants_witness :
    IsSet (⟨[], List.range 100⟩ : Room).participants ∧
      (⟨[], List.range 100⟩ : Room).participants.length = Room.maxParticipants ∧
      100 ∉ (⟨[], List.range 100⟩ : Room).participants ∧
      ((⟨[], List.range 100⟩ : Room).join 100).participants.length = 101 :=
  ⟨by decide, by decide, by decide,
    (join_ignores_maxParticipants ⟨[], List.range 100⟩ 100
      (by decide) (by decide) (by decide)).1⟩

/-! ## The message codec: `decodeHeader` is idempotent -/

theorem Message.decodeHeader_eq (m : Message) :
    m.decodeHeader =
      if m.headerValue > 512 then ({ data := m.data, bodyLength_ := 0 }, false)
      else ({ data := m.data, bodyLength_ := toSizeT m.headerValue }, true) := rfl

/-- C19. For every message state, `decodeHeader()` leaves the bytes of `data`
(header and body) unchanged, and a second call returns the same result and
leaves the same message, body length included, as the first. -/
theorem decodeHeader_idempotent (m : Message) :
    m.decodeHeader.1.data = m.data ∧
      m.decodeHeader.1.decodeHeader = m.decodeHeader ∧
      m.decodeHeader.1.decodeHeader.2 = m.decodeHeader.2 ∧
      m.decodeHeader.1.decodeHeader.1.bodyLength_ = m.decodeHeader.1.bodyLength_ := by
  have hv : ∀ a : Message, a.data = m.data → a.decodeHeader = m.decodeHeader := by
    intro a ha
    rw [Message.decodeHeader_eq a, Message.decodeHeader_eq m]
    unfold Message.headerValue
    rw [ha]
  have hdata : m.decodeHeader.1.data = m.data := by
    rw [Message.decodeHeader_eq m]
    split <;> rfl
  have heq := hv m.decodeHeader.1 hdata
  exact ⟨hdata, heq, by rw [heq], by rw [heq]⟩

/-! ## The room: sequences of calls -/

/-- A delivery that only records its calls, in a room with an empty queue:
the room is unchanged and the log grows by one call per participant other
than the sender. -/
theorem Room.deliver_record (r : Room) (hq : r.messageQueue = []) (A : ParticipantPointer)
    (m : Message) (log : List (ParticipantPointer × Message)) :
    Room.deliver Room.recordWrite r A m log =
      (r, log ++ (r.participants.filter (fun p => decide (A ≠ p))).map (fun p => (p, m)),
        none) := by
  cases r with
  | mk q ps =>
    simp only at hq
    subst hq
    simp [Room.deliver, Room.drain, Room.fanOut_record]

theorem Room.step_deliver (r : Room) (hq : r.messageQueue = []) (A : ParticipantPointer)
    (m : Message) (log : List (ParticipantPointer × Message)) :
    Room.step (r, log) (.deliver A m) =
      (r, log ++ (r.participants.filter (fun p => decide (A ≠ p))).map (fun p => (p, m))) := by
  simp only [Room.step, Room.deliver_record r hq]

theorem Room.run_delivers (r : Room) (hq : r.messageQueue = []) (A : ParticipantPointer)
    (ms : List Message) :
    ∀ log, Room.run (r, log) (ms.map (RoomOp.deliver A)) =
      (r, log ++ ms.flatMap (fun m =>
        (r.participants.filter (fun p => decide (A ≠ p))).map (fun p => (p, m)))) := by
  induction ms with
  | nil => intro log; simp [Room.run]
  | cons m ms ih =>
    intro log
    have := ih (log ++ (r.participants.filter (fun p => decide (A ≠ p))).map (fun p => (p, m)))
    simp only [Room.run, List.map_cons, List.foldl_cons, Room.step_deliver r hq] at this ⊢
    rw [this]
    simp [List.flatMap_cons, List.append_assoc]

theorem filter_eq_singleton_of_nodup (l : List ParticipantPointer) (p : ParticipantPointer)
    (hn : l.Nodup) (hp : p ∈ l) : l.filter (fun q => decide (q = p)) = [p] := by
  induction l with
  | nil => cases hp
  | cons q l ih =>
    rw [List.nodup_cons] at hn
    by_cases hq : q = p
    · subst hq
      have : l.filter (fun x => decide (x = q)) = [] := by
        rw [List.filter_eq_nil_iff]
        intro a ha
        have : a ≠ q := fun e => hn.1 (e ▸ ha)
        simpa using this
      simp [List.filter_cons, this]
    · have hin : p ∈ l := by
        rcases List.mem_cons.mp hp with e | e
        · exact absurd e.symm hq
        · exact e
      simp [List.filter_cons, hq, ih hn.2 hin]

theorem callsTo_append (p : ParticipantPointer) (a b : List (ParticipantPointer × Message)) :
    callsTo p (a ++ b) = callsTo p a ++ callsTo p b := by
  simp [callsTo]

theorem callsTo_fanOut (ps : List ParticipantPointer) (hn : ps.Nodup)
    (A p : ParticipantPointer) (m : Message) (hp : p ∈ ps) (hne : p ≠ A) :
    callsTo p ((ps.filter (fun q => decide (A ≠ q))).map (fun q => (q, m))) = [m] := by
  have hin : p ∈ ps.filter (fun q => decide (A ≠ q)) := by
    rw [List.mem_filter]
    exact ⟨hp, by simpa using fun e => hne e.symm⟩
  have h1 := filter_eq_singleton_of_nodup _ p (hn.filter _) hin
  unfold callsTo
  rw [List.filter_map]
  have : ((fun c : ParticipantPointer × Message => decide (c.1 = p)) ∘ fun q => (q, m)) =
      fun q => decide (q = p) := rfl
  rw [this, h1]
  rfl

/-- C13. Per-sender ordering: in every room state between calls, when a
sender `A` delivers the messages `m1..mn` in that order with the participant
set fixed, the `write` calls of each other participant are exactly `m1..mn`,
in the same order. -/
theorem per_sender_ordering (r : Room) (A : ParticipantPointer) (ms : List Message)
    (hv : r.Valid) :
    (Room.run (r, []) (ms.map (RoomOp.deliver A))).1.participants = r.participants ∧
      (∀ p, p ∈ r.participants → p ≠ A →
        callsTo p (Room.run (r, []) (ms.map (RoomOp.deliver A))).2 = ms) ∧
      callsTo A (Room.run (r, []) (ms.map (RoomOp.deliver A))).2 = [] := by
  rw [Room.run_delivers r hv.1 A ms []]
  refine ⟨rfl, ?_, ?_⟩
  · intro p hp hne
    simp only [List.nil_append]
    induction ms with
    | nil => rfl
    | cons m ms ih =>
      rw [List.flatMap_cons, callsTo_append, ih,
        callsTo_fanOut r.participants (IsSet.nodup hv.2) A p m hp hne]
      rfl
  · simp only [List.nil_append]
    induction ms with
    | nil => rfl
    | cons m ms ih =>
      rw [List.flatMap_cons, callsTo_append, ih, List.append_nil]
      unfold callsTo
      rw [List.filter_map, List.filter_filter]
      have : List.filter (fun a => (decide (a = A) && decide (A ≠ a)))
          r.participants = [] := by
        rw [List.filter_eq_nil_iff]
        intro a _
        by_cases e : a = A
        · simp [e]
        · simp [e]
      simp only [Function.comp_def]
      rw [this]
      rfl

theorem per_sender_ordering_witness :
    (((Room.empty.join 10).join 30).join 20).Valid ∧
      callsTo 30 (Room.run ((((Room.empty.join 10).join 30).join 20), [])
        ([Message.new [] (ascii "a"), Message.new [] (ascii "b"),
          Message.new [] (ascii "c")].map (RoomOp.deliver 10))).2
        = [Message.new [] (ascii "a"), Message.new [] (ascii "b"), Message.new [] (ascii "c")] :=
  ⟨by decide,
    (per_sender_ordering (((Room.empty.join 10).join 30).join 20) 10
      [Message.new [] (ascii "a"), Message.new [] (ascii "b"), Message.new [] (ascii "c")]
      (by decide)).2.1 30 (by decide) (by decide)⟩

/-- While `X` is not re-joined, a run of calls keeps `X` out of the room and
never calls `write` on `X`. -/
theorem Room.run_without_join (X : ParticipantPointer) (ops : List RoomOp)
    (hno : RoomOp.join X ∉ ops) :
    ∀ st : Room × List (ParticipantPointer × Message),
      st.1.Valid → X ∉ st.1.participants → (∀ c ∈ st.2, c.1 ≠ X) →
      (Room.run st ops).1.Valid ∧ X ∉ (Room.run st ops).1.participants ∧
        ∀ c ∈ (Room.run st ops).2, c.1 ≠ X := by
  induction ops with
  | nil => intro st hv hx hl; exact ⟨hv, hx, hl⟩
  | cons op ops ih =>
    intro st hv hx hl
    have hno1 : RoomOp.join X ≠ op := fun e => hno (e ▸ List.mem_cons_self _ _)
    have hno2 : RoomOp.join X ∉ ops := fun e => hno (List.mem_cons_of_mem _ e)
    obtain ⟨r, log⟩ := st
    simp only [Room.run, List.foldl_cons]
    apply ih hno2
    · cases op with
      | join p => exact Room.valid_join r p hv
      | leave p => exact Room.valid_leave r p hv
      | deliver p m =>
        rw [Room.step_deliver r hv.1]
        exact hv
    · cases op with
      | join p =>
        have hp : X ≠ p := fun e => hno1 (by rw [e])
        simp only [Room.step, Room.join, mem_setInsert]
        rintro (e | e)
        · exact hp e
        · exact hx e
      | leave p =>
        simp only [Room.step, Room.leave]
        intro hin
        exact hx ((mem_setErase p X r.participants hv.2).mp hin).2
      | deliver p m =>
        rw [Room.step_deliver r hv.1]
        exact hx
    · cases op with
      | join p => exact hl
      | leave p => exact hl
      | deliver p m =>
        rw [Room.step_deliver r hv.1]
        intro c hc
        rcases List.mem_append.mp hc with h | h
        · exact hl c h
        · simp only [List.mem_map, List.mem_filter] at h
          obtain ⟨q, ⟨hq, _⟩, rfl⟩ := h
          intro e
          exact hx (e ▸ hq)

/-- C12. Disconnect cleanup: once the read of session `X` has reported an
error or closure, `X` has left the room, and in every later sequence of
`join`, `leave` and `deliver` calls that does not join `X` again, no delivery
calls `write` on `X`. -/
theorem disconnect_cleanup (w : World) (X : ParticipantPointer) (uninit data : Bytes)
    (ops : List RoomOp) (hv : w.room.Valid) (hno : RoomOp.join X ∉ ops) :
    (w.async_read_handler X true uninit data).1.room = w.room.leave X ∧
      X ∉ (w.async_read_handler X true uninit data).1.room.participants ∧
      (∀ c ∈ (Room.run ((w.async_read_handler X true uninit data).1.room, []) ops).2,
        c.1 ≠ X) ∧
      X ∉ (Room.run ((w.async_read_handler X true uninit data).1.room, []) ops).1.participants
    := by
  have e : (w.async_read_handler X true uninit data).1.room = w.room.leave X := rfl
  have hx : X ∉ (w.room.leave X).participants := by
    intro hin
    exact ((mem_setErase X X w.room.participants hv.2).mp hin).1 rfl
  have h := Room.run_without_join X ops hno (w.room.leave X, [])
    (Room.valid_leave w.room X hv) hx (by intro c hc; cases hc)
  rw [e]
  exact ⟨rfl, hx, h.2.2, h.2.1⟩

theorem disconnect_cleanup_witness :
    ((World.init.start 1).start 2).room.Valid ∧
      RoomOp.join 2 ∉ [RoomOp.join 3, RoomOp.deliver 1 (Message.new [] (ascii "a")),
        RoomOp.leave 3, RoomOp.deliver 3 (Message.new [] (ascii "b"))] ∧
      (Room.run ((((World.init.start 1).start 2).async_read_handler 2 true [] []).1.room, [])
        [RoomOp.join 3, RoomOp.deliver 1 (Message.new [] (ascii "a")),
          RoomOp.leave 3, RoomOp.deliver 3 (Message.new [] (ascii "b"))]).2
        = [(3, Message.new [] (ascii "a")), (1, Message.new [] (ascii "b"))] ∧
      (∀ c ∈ (Room.run ((((World.init.start 1).start 2).async_read_handler 2 true [] []).1.room,
          [])
        [RoomOp.join 3, RoomOp.deliver 1 (Message.new [] (ascii "a")),
          RoomOp.leave 3, RoomOp.deliver 3 (Message.new [] (ascii "b"))]).2, c.1 ≠ 2) :=
  ⟨by decide, by decide, by decide,
    (disconnect_cleanup ((World.init.start 1).start 2) 2 [] []
      [RoomOp.join 3, RoomOp.deliver 1 (Message.new [] (ascii "a")),
        RoomOp.leave 3, RoomOp.deliver 3 (Message.new [] (ascii "b"))]
      (by decide) (by decide)).2.2.1⟩

/-! ## The room: a recipient whose `write` raises -/

theorem Room.deliver_eq_fanOut {σ : Type}
    (write : ParticipantPointer → Message → σ → σ × Option CppError)
    (r : Room) (hq : r.messageQueue = []) (A : ParticipantPointer) (m : Message) (s : σ) :
    (Room.deliver write r A m s).2 = Room.fanOut write A m r.participants s := by
  unfold Room.deliver
  rw [hq, List.nil_append]
  unfold Room.drain
  generalize Room.fanOut write A m r.participants s = res
  obtain ⟨s1, e⟩ := res
  cases e with
  | none => simp [Room.drain]
  | some e => rfl

theorem Room.fanOut_failing_ok (fail : ParticipantPointer → Option CppError)
    (A : ParticipantPointer) (m : Message) (ps : List ParticipantPointer)
    (hok : ∀ p ∈ ps, p ≠ A → fail p = none) :
    ∀ log, Room.fanOut (Room.recordFailing fail) A m ps log =
      (log ++ (ps.filter (fun p => decide (A ≠ p))).map (fun p => (p, m)), none) := by
  induction ps with
  | nil => intro log; simp [Room.fanOut]
  | cons p ps ih =>
    intro log
    have ih1 := ih (fun q hq => hok q (List.mem_cons_of_mem _ hq))
    by_cases h : A = p
    · subst h
      simp [Room.fanOut, ih1]
    · have hp : fail p = none := hok p (List.mem_cons_self _ _) (fun e => h e.symm)
      simp [Room.fanOut, h, Room.recordFailing, hp, ih1]

theorem Room.fanOut_failing_stop (fail : ParticipantPointer → Option CppError)
    (A : ParticipantPointer) (m : Message) (q : ParticipantPointer) (e : CppError)
    (post : List ParticipantPointer) (hq : q ≠ A) (hfail : fail q = some e) :
    ∀ (pre : List ParticipantPointer), (∀ p ∈ pre, p ≠ A → fail p = none) →
      ∀ log, Room.fanOut (Room.recordFailing fail) A m (pre ++ q :: post) log =
        (log ++ (pre.filter (fun p => decide (A ≠ p)) ++ [q]).map (fun p => (p, m)),
          some e) := by
  intro pre
  induction pre with
  | nil =>
    intro _ log
    have h : A ≠ q := fun e => hq e.symm
    simp [Room.fanOut, h, Room.recordFailing, hfail]
  | cons p pre ih =>
    intro hok log
    have ih1 := ih (fun x hx => hok x (List.mem_cons_of_mem _ hx))
    by_cases h : A = p
    · subst h
      simp [Room.fanOut, ih1]
    · have hp : fail p = none := hok p (List.mem_cons_self _ _) (fun e => h e.symm)
      simp [Room.fanOut, h, Room.recordFailing, hp, ih1]

/-- C14, as stated, fails: in the room `{1, 2, 3}` with sender 1, when the
`write` of participant 2 raises, `write` is not called on participant 3. -/
theorem failing_write_aborts_fan_out :
    ¬ (∀ p ∈ (((Room.empty.join 1).join 2).join 3).participants, p ≠ 1 →
        (p, Message.new [] (ascii "hi")) ∈
          (Room.deliver
            (Room.recordFailing (fun p => if p = 2 then some CppError.length_error else none))
            (((Room.empty.join 1).join 2).join 3) 1 (Message.new [] (ascii "hi")) []).2.1) := by
  decide

/-- C14, amended. In `Room::deliver(A, m)` in a room between calls, if the
`write` of one recipient raises, the exception leaves `deliver` at once:
`write(m)` has been called on the participants other than `A` up to and
including the failing one, in set order, and on no participant after it.  If
no `write` raises, `write(m)` is called on every participant other than `A`. -/
theorem failing_write_ends_fan_out (r : Room) (A : ParticipantPointer) (m : Message)
    (fail : ParticipantPointer → Option CppError) (hv : r.Valid) :
    ((∀ p ∈ r.participants, p ≠ A → fail p = none) →
        (Room.deliver (Room.recordFailing fail) r A m []).2 =
          ((r.participants.filter (fun p => decide (A ≠ p))).map (fun p => (p, m)), none)) ∧
      (∀ pre q post e, r.participants = pre ++ q :: post →
        (∀ p ∈ pre, p ≠ A → fail p = none) → q ≠ A → fail q = some e →
        (Room.deliver (Room.recordFailing fail) r A m []).2 =
            ((pre.filter (fun p => decide (A ≠ p)) ++ [q]).map (fun p => (p, m)), some e) ∧
          ∀ p ∈ post, ∀ msg,
            (p, msg) ∉ (Room.deliver (Room.recordFailing fail) r A m []).2.1) := by
  constructor
  · intro hok
    rw [Room.deliver_eq_fanOut _ r hv.1, Room.fanOut_failing_ok fail A m _ hok []]
    rfl
  · intro pre q post e hps hok hq hfail
    have hrun : (Room.deliver (Room.recordFailing fail) r A m []).2 =
        ((pre.filter (fun p => decide (A ≠ p)) ++ [q]).map (fun p => (p, m)), some e) := by
      rw [Room.deliver_eq_fanOut _ r hv.1, hps,
        Room.fanOut_failing_stop fail A m q e post hq hfail pre hok []]
      rfl
    refine ⟨hrun, ?_⟩
    intro p hp msg hin
    rw [hrun] at hin
    have hnd : (pre ++ q :: post).Nodup := hps ▸ IsSet.nodup hv.2
    rw [List.nodup_append] at hnd
    have hnq : (q :: post).Nodup := hnd.2.1
    rw [List.nodup_cons] at hnq
    simp only [List.mem_map, List.mem_append, List.mem_filter, List.mem_singleton] at hin
    obtain ⟨x, hx, hxe⟩ := hin
    have hxp : x = p := (Prod.mk.inj hxe).1
    subst hxp
    rcases hx with ⟨hx, _⟩ | hx
    · exact hnd.2.2 hx (List.mem_cons_of_mem _ hp)
    · exact hnq.1 (hx ▸ hp)

theorem failing_write_ends_fan_out_witness :
    (((Room.empty.join 1).join 2).join 3).Valid ∧
      (Room.deliver
        (Room.recordFailing (fun p => if p = 2 then some CppError.length_error else none))
        (((Room.empty.join 1).join 2).join 3) 1 (Message.new [] (ascii "hi")) []).2 =
        ((([1].filter (fun p => decide (1 ≠ p))) ++ [2]).map
          (fun p => (p, Message.new [] (ascii "hi"))), some CppError.length_error) :=
  ⟨by decide,
    ((failing_write_ends_fan_out (((Room.empty.join 1).join 2).join 3) 1
      (Message.new [] (ascii "hi"))
      (fun p => if p = 2 then some CppError.length_error else none) (by decide)).2
      [1] 2 [3] CppError.length_error (by decide) (by decide) (by decide) (by decide)).1⟩

/-! ## Sessions: the outbound queue, and reachable server states -/

/-- The loop of `Session::write` ends with an empty queue when it returns
normally. -/
theorem Session.writeLoop_cons (front : Message) (q : List Message) (out : List Bytes) :
    Session.writeLoop (front :: q) out =
      if front.decodeHeader.2 = true then
        match front.decodeHeader.1.getBody with
        | .ok body =>
          Session.writeLoop q
            (Session.async_write out body front.decodeHeader.1.getBodyLength)
        | .error e => (q, out, some e)
      else Session.writeLoop q out := by
  rw [Session.writeLoop]
  cases hd : front.decodeHeader with
  | mk message ok =>
    cases ok with
    | false => simp
    | true => simp

theorem Session.writeLoop_queue (q : List Message) :
    ∀ out, (Session.writeLoop q out).2.2 = none → (Session.writeLoop q out).1 = [] := by
  induction q with
  | nil => intro out _; rfl
  | cons front q ih =>
    intro out h
    rw [Session.writeLoop_cons] at h ⊢
    by_cases hok : front.decodeHeader.2 = true
    · rw [if_pos hok] at h ⊢
      cases hb : front.decodeHeader.1.getBody with
      | error e => rw [hb] at h; simp at h
      | ok body =>
        rw [hb] at h
        exact ih _ h
    · rw [if_neg hok] at h ⊢
      exact ih out h

/-- With one message in the queue, the loop of `Session::write` ends with an
empty queue also when it raises. -/
theorem Session.writeLoop_single (m : Message) (out : List Bytes) :
    (Session.writeLoop [m] out).1 = [] := by
  rw [Session.writeLoop_cons]
  by_cases hok : m.decodeHeader.2 = true
  · rw [if_pos hok]
    cases m.decodeHeader.1.getBody with
    | error e => rfl
    | ok body => rfl
  · rw [if_neg hok]
    rfl

theorem Session.write_queue (s : Session) (m : Message) :
    ((s.write m).2 = none → (s.write m).1.messageQueue = []) ∧
      (s.messageQueue = [] → (s.write m).1.messageQueue = []) := by
  constructor
  · intro h
    exact Session.writeLoop_queue _ _ h
  · intro hq
    unfold Session.write
    rw [hq, List.nil_append]
    exact Session.writeLoop_single m s.socketWrites

/-- In every reachable server state the room is between calls and every
session has an empty outbound queue. -/
theorem World.reachable_inv (w : World) (hw : w.Reachable) :
    w.room.Valid ∧ ∀ p, (w.sessions p).messageQueue = [] := by
  induction hw with
  | init => exact ⟨Room.valid_empty, fun _ => rfl⟩
  | start w self _ ih => exact ⟨Room.valid_join _ _ ih.1, ih.2⟩
  | read w self ec uninit data _ ih =>
    cases ec with
    | true => exact ⟨Room.valid_leave _ _ ih.1, ih.2⟩
    | false =>
      have e : w.async_read_handler self false uninit data =
          w.deliver self (Message.new uninit data) := rfl
      rw [e, World.deliver_new w ih.1 ih.2]
      refine ⟨ih.1, ?_⟩
      intro p
      simp only [World.afterFanOut]
      split
      · rfl
      · exact ih.2 p

/-- C15. Pending buffers drain: a room whose queue is empty before
`Room::deliver` has an empty queue after it; a session whose outbound queue is
empty before `Session::write` has an empty queue after it, and so has every
session when `write` returns; and in every reachable server state the queue
of the room and the queues of all sessions are empty. -/
theorem pending_buffers_drain (r : Room) (s : Session) (w : World)
    (hr : r.messageQueue = []) (hs : s.messageQueue = []) (hw : w.Reachable) :
    (∀ (σ : Type) (write : ParticipantPointer → Message → σ → σ × Option CppError)
        (A : ParticipantPointer) (m : Message) (st : σ),
        (r.deliver write A m st).1.messageQueue = []) ∧
      (∀ m, (s.write m).1.messageQueue = []) ∧
      (∀ (s1 : Session) m, (s1.write m).2 = none → (s1.write m).1.messageQueue = []) ∧
      w.room.messageQueue = [] ∧
      (∀ p, (w.sessions p).messageQueue = []) := by
  refine ⟨?_, ?_, ?_, (World.reachable_inv w hw).1.1, (World.reachable_inv w hw).2⟩
  · intro σ write A m st
    have := Room.drain_nil_queue write A r.participants m st
    unfold Room.deliver
    rw [hr, List.nil_append]
    exact this
  · intro m
    exact (Session.write_queue s m).2 hs
  · intro s1 m h
    exact (Session.write_queue s1 m).1 h

theorem pending_buffers_drain_witness :
    (Room.empty.join 1).messageQueue = [] ∧ Session.fresh.messageQueue = [] ∧
      ((World.init.start 1).start 2).Reachable ∧
      (Session.fresh.write (Message.new [] (ascii "hi"))).1.messageQueue = [] ∧
      ((World.init.start 1).start 2).room.messageQueue = [] :=
  ⟨rfl, rfl, World.Reachable.start _ _ (World.Reachable.start _ _ World.Reachable.init),
    (pending_buffers_drain (Room.empty.join 1) Session.fresh ((World.init.start 1).start 2)
      rfl rfl (World.Reachable.start _ _ (World.Reachable.start _ _ World.Reachable.init))).2.1
      (Message.new [] (ascii "hi")),
    (pending_buffers_drain (Room.empty.join 1) Session.fresh ((World.init.start 1).start 2)
      rfl rfl
      (World.Reachable.start _ _ (World.Reachable.start _ _ World.Reachable.init))).2.2.2.1⟩

/-! ## Sessions: `write` and the validity of the header -/

/-- For a header value in `0..512`, `Session::write` issues one socket write,
of the body; for a header value above 512 it issues none.  Either way the
message does not stay in the queue. -/
theorem Session.write_of_header (s : Session) (hq : s.messageQueue = []) (m : Message)
    (hd : 4 ≤ m.data.length) :
    (∀ n : Nat, n ≤ 512 → m.headerValue = (n : Int) →
        s.write m = ({ messageQueue := [],
                       socketWrites := s.socketWrites ++ [(m.data.drop 4).take n] }, none)) ∧
      (m.headerValue > 512 →
        s.write m = ({ messageQueue := [], socketWrites := s.socketWrites }, none)) := by
  constructor
  · intro n hn hv
    unfold Session.write
    rw [hq, List.nil_append, Session.writeLoop_cons, Message.decodeHeader_ok m n hn hv]
    simp only [if_true, Message.getBody_mk m.data n hn hd, Session.async_write,
      Message.getBodyLength, Session.writeLoop]
    rw [List.take_take, Nat.min_self]
  · intro hv
    unfold Session.write
    rw [hq, List.nil_append, Session.writeLoop_cons, Message.decodeHeader_eq, if_pos hv]
    simp [Session.writeLoop]

/-- When `decodeHeader` accepts the header and `getBody` raises, the exception
leaves `Session::write` without a socket write. -/
theorem Session.write_raises (s : Session) (hq : s.messageQueue = []) (m m1 : Message)
    (e : CppError) (hd : m.decodeHeader = (m1, true)) (hb : m1.getBody = .error e) :
    s.write m = ({ messageQueue := [], socketWrites := s.socketWrites }, some e) := by
  unfold Session.write
  rw [hq, List.nil_append, Session.writeLoop_cons, hd]
  simp only [if_true]
  rw [hb]

/-- C16. At a message whose header bytes are `"-005"`, `decodeHeader()`
succeeds (result `true`), yet `Session::write` issues no socket write:
`getBody()` raises `length_error` and the exception leaves `write`. -/
theorem write_negative_header_issues_no_write (rest : Bytes) (bl : Nat) :
    (⟨ascii "-005" ++ rest, bl⟩ : Message).decodeHeader
        = (⟨ascii "-005" ++ rest, 2 ^ 64 - 5⟩, true) ∧
      Session.fresh.write ⟨ascii "-005" ++ rest, bl⟩
        = ({ messageQueue := [], socketWrites := [] }, some CppError.length_error) :=
  ⟨Message.decodeHeader_minus5 rest bl,
    Session.write_raises Session.fresh rfl _ _ _ (Message.decodeHeader_minus5 rest bl)
      (Message.getBody_of_getData_error _ _ (Message.getData_minus5 rest))⟩

/-! ## Sessions: a line longer than 512 bytes -/

/-- C17. Oversized line: in every reachable server state, when the read of a
session completes with data longer than 512 bytes, every other participant of
the room is sent exactly the first 512 bytes of the data in one socket write,
and nobody else is sent anything; for a line of 600 bytes `'x'` that is a body
of exactly 512 bytes, all `'x'`. -/
theorem oversized_line_is_truncated (w : World) (self : ParticipantPointer)
    (uninit data : Bytes) (hw : w.Reachable) (hlen : data.length > 512) :
    (w.async_read_handler self false uninit data).2 = none ∧
      (∀ p, p ∈ w.room.participants → p ≠ self →
        ((w.async_read_handler self false uninit data).1.sessions p).socketWrites
          = (w.sessions p).socketWrites ++ [data.take 512]) ∧
      (data.take 512).length = 512 ∧
      (∀ p, ¬ (p ∈ w.room.participants ∧ p ≠ self) →
        (w.async_read_handler self false uninit data).1.sessions p = w.sessions p) ∧
      (data = List.replicate 600 120 ++ [10] → data.take 512 = List.replicate 512 120) := by
  have hinv := World.reachable_inv w hw
  have e : w.async_read_handler self false uninit data =
      w.deliver self (Message.new uninit data) := rfl
  rw [e, World.deliver_new w hinv.1 hinv.2]
  refine ⟨rfl, ?_, ?_, ?_, ?_⟩
  · intro p hp hne
    simp only [World.afterFanOut]
    rw [if_pos ⟨hp, hne⟩]
  · rw [List.length_take]
    omega
  · intro p hp
    simp only [World.afterFanOut]
    rw [if_neg hp]
  · intro hdata
    rw [hdata, List.take_append_of_le_length (by rw [List.length_replicate]; omega),
      List.take_replicate]
    rfl

theorem oversized_line_is_truncated_witness :
    ((World.init.start 1).start 2).Reachable ∧
      (List.replicate 600 120 ++ [10] : Bytes).length > 512 ∧
      ((((World.init.start 1).start 2).async_read_handler 1 false []
        (List.replicate 600 120 ++ [10])).1.sessions 2).socketWrites
        = (((World.init.start 1).start 2).sessions 2).socketWrites
          ++ [(List.replicate 600 120 ++ [10] : Bytes).take 512] :=
  ⟨World.Reachable.start _ _ (World.Reachable.start _ _ World.Reachable.init),
    by rw [List.length_append, List.length_replicate]; decide,
    (oversized_line_is_truncated ((World.init.start 1).start 2) 1 []
      (List.replicate 600 120 ++ [10])
      (World.Reachable.start _ _ (World.Reachable.start _ _ World.Reachable.init))
      (by rw [List.length_append, List.length_replicate]; decide)).2.1 2
      (by decide) (by decide)⟩

end ChatMesh
